import Mathlib

/-!
Verification of the acquisition streaming engine of an NI-DAQ measurement
application: the sliding-window buffer fold of `_acquire_loop`, the
acquisition-session state machine of `start_acquisition`, the
channel-configuration parse of `MeasurementHandler.__init__`, and the TDMS
container reader `TdmsHandler._load`.  The Python/numpy code is embedded as
pure functions over lists of rationals; the heap-allocated numpy arrays of
the worker loop are additionally modelled with an explicit store in order to
reason about aliasing between the worker thread and the display consumer.
-/

namespace NiAcq

/-! ## Sliding-buffer primitives (`_acquire_loop`) -/

/-- `np.roll(a, -k)` on a one-dimensional array: rotate left by `k`,
re-introducing the elements that fall off the front at the back. -/
def npRollLeft (l : List ℚ) (k : ℕ) : List ℚ :=
  l.rotate k

/-- The slice assignment `a[-k:] = new` (for `1 ≤ new.length ≤ a.length`):
replace the trailing `new.length` entries of `a` by `new`. -/
def setTrailing (l new : List ℚ) : List ℚ :=
  l.take (l.length - new.length) ++ new

/-- The timestamps written into the trailing slots of one fold:
`(idx + np.arange(k)) / self.sample_rate`. -/
def newTimes (idx k : ℕ) (rate : ℚ) : List ℚ :=
  (List.range k).map fun i : ℕ => ((idx : ℚ) + (i : ℚ)) / rate

/-- One fold of the time buffer:
`self.time_buffer = np.roll(self.time_buffer, -num_to_read)` followed by
`self.time_buffer[-num_to_read:] = (idx + np.arange(num_to_read)) / self.sample_rate`. -/
def foldTime (tb : List ℚ) (idx k : ℕ) (rate : ℚ) : List ℚ :=
  setTrailing (npRollLeft tb k) (newTimes idx k rate)

/-- One fold of a single channel row of the data buffer: row `r` of
`np.roll(self.data_buffer, -num_to_read, axis=1)` followed by
`self.data_buffer[r, -num_to_read:] = temp_data[r]`. -/
def foldRow (row temp : List ℚ) (k : ℕ) : List ℚ :=
  setTrailing (npRollLeft row k) temp

/-- One fold of the whole `channels × capacity` data buffer. -/
def foldData (db temp : List (List ℚ)) (k : ℕ) : List (List ℚ) :=
  List.zipWith (fun row t => foldRow row t k) db temp

lemma take_rotate (l : List ℚ) (k : ℕ) (hk : k ≤ l.length) :
    (l.rotate k).take (l.length - k) = l.drop k := by
  rw [List.rotate_eq_drop_append_take hk]
  have h : (l.drop k).length = l.length - k := List.length_drop k l
  rw [← h, List.take_left]

lemma setTrailing_rotate (l new : List ℚ) (k : ℕ) (hk : k ≤ l.length)
    (hn : new.length = k) : setTrailing (npRollLeft l k) new = l.drop k ++ new := by
  unfold setTrailing npRollLeft
  rw [List.length_rotate, hn, take_rotate l k hk]

lemma newTimes_length (idx k : ℕ) (rate : ℚ) : (newTimes idx k rate).length = k := by
  simp [newTimes]

lemma foldTime_eq (tb : List ℚ) (idx k : ℕ) (rate : ℚ) (hk : k ≤ tb.length) :
    foldTime tb idx k rate = tb.drop k ++ newTimes idx k rate := by
  unfold foldTime
  exact setTrailing_rotate tb _ k hk (newTimes_length idx k rate)

lemma foldRow_eq (row temp : List ℚ) (k : ℕ) (hk : k ≤ row.length)
    (ht : temp.length = k) : foldRow row temp k = row.drop k ++ temp := by
  unfold foldRow
  exact setTrailing_rotate row temp k hk ht

lemma foldData_eq (db temp : List (List ℚ)) (k n : ℕ) (hk : k ≤ n)
    (hrow : ∀ row ∈ db, row.length = n) (htrow : ∀ t ∈ temp, t.length = k) :
    foldData db temp k = List.zipWith (fun row t => row.drop k ++ t) db temp := by
  induction db generalizing temp with
  | nil => cases temp <;> rfl
  | cons r rs ih =>
    cases temp with
    | nil => rfl
    | cons t ts =>
      have h1 : foldRow r t k = r.drop k ++ t :=
        foldRow_eq r t k (by rw [hrow r (List.mem_cons_self r rs)]; exact hk)
          (htrow t (List.mem_cons_self t ts))
      have h2 : foldData rs ts k = List.zipWith (fun row t => row.drop k ++ t) rs ts :=
        ih ts (fun row hr => hrow row (List.mem_cons_of_mem r hr))
          (fun u hu => htrow u (List.mem_cons_of_mem t hu))
      simp only [foldData, List.zipWith] at *
      rw [h1, h2]

/-- Claim C1: a fold of `k ≥ 1` new samples per channel at elapsed sample
index `e` leaves the sliding buffer equal to the old buffer left-shifted by
`k` positions (the oldest `k` entries discarded) with the `k` new samples in
the trailing `k` slots of each channel row, and the trailing `k` timestamps
equal to `(e + i) / sample_rate` for `i` in `[0, k)`. -/
theorem c1_fold_is_shift_append (tb : List ℚ) (db temp : List (List ℚ))
    (e k : ℕ) (rate : ℚ) (_hk : 1 ≤ k) (hkt : k ≤ tb.length)
    (hrow : ∀ row ∈ db, row.length = tb.length)
    (htrow : ∀ t ∈ temp, t.length = k) :
    foldTime tb e k rate = tb.drop k ++ newTimes e k rate
    ∧ foldData db temp k = List.zipWith (fun row t => row.drop k ++ t) db temp
    ∧ (foldTime tb e k rate).drop (tb.length - k) =
        (List.range k).map (fun i : ℕ => ((e : ℚ) + (i : ℚ)) / rate) := by
  refine ⟨foldTime_eq tb e k rate hkt, foldData_eq db temp k tb.length hkt hrow htrow, ?_⟩
  rw [foldTime_eq tb e k rate hkt]
  have h : (tb.drop k).length = tb.length - k := List.length_drop k tb
  rw [← h, List.drop_left]
  rfl

/-- Witness for C1 at a concrete three-slot buffer with one channel,
`k = 2` new samples at elapsed index `e = 7`, sample rate 100. -/
theorem c1_fold_is_shift_append_witness :
    foldTime [0, 0, 0] 7 2 100 = [0, 0, 0].drop 2 ++ newTimes 7 2 100
    ∧ foldData [[1, 2, 3]] [[8, 9]] 2 =
        List.zipWith (fun row t => row.drop 2 ++ t) [[1, 2, 3]] [[8, 9]]
    ∧ (foldTime [0, 0, 0] 7 2 100).drop ([0, 0, 0].length - 2) =
        (List.range 2).map (fun i : ℕ => ((7 : ℚ) + (i : ℚ)) / 100) :=
  c1_fold_is_shift_append [0, 0, 0] [[1, 2, 3]] [[8, 9]] 7 2 100 (by decide)
    (by decide) (by decide) (by decide)

/-! ## Loop-level time-buffer state (`MeasurementHandler`) -/

/-- `self.sample_rate = 100`. -/
def sampleRate : ℕ := 100

/-- `self.max_samples = self.sample_rate * 60`: the fixed buffer capacity. -/
def maxSamples : ℕ := sampleRate * 60

/-- One iteration of `_acquire_loop` acting on the pair
(cumulative sample index `idx`, `time_buffer`): read
`num_to_read = min(available, 1000)` samples and fold them, or do nothing
when no samples are available. -/
def timeStep (s : ℕ × List ℚ) (available : ℕ) : ℕ × List ℚ :=
  let k := min available 1000
  if 0 < k then (s.1 + k, foldTime s.2 s.1 k (sampleRate : ℚ)) else s

/-- A whole run of the loop over a sequence of available-sample counts. -/
def timeRun (s : ℕ × List ℚ) (avails : List ℕ) : ℕ × List ℚ :=
  avails.foldl timeStep s

/-- The state set up by `start_acquisition`: index 0 and a zeroed buffer
(`self.time_buffer[:] = 0`). -/
def initTime : ℕ × List ℚ :=
  (0, List.replicate maxSamples 0)

/-- The loop invariant: constant length, sorted timestamps, and every entry
bounded by the time of the next sample to be acquired. -/
def timeInv (s : ℕ × List ℚ) : Prop :=
  s.2.length = maxSamples ∧ s.2.Sorted (· ≤ ·)
    ∧ ∀ x ∈ s.2, x ≤ (s.1 : ℚ) / (sampleRate : ℚ)

lemma newTimes_sorted (idx k : ℕ) (rate : ℚ) (hr : 0 < rate) :
    (newTimes idx k rate).Sorted (· ≤ ·) := by
  unfold newTimes
  rw [List.Sorted, List.pairwise_map]
  refine List.pairwise_lt_range k |>.imp ?_
  intro a b hab
  apply div_le_div_of_nonneg_right ?_ hr.le
  have : (a : ℚ) ≤ (b : ℚ) := by exact_mod_cast Nat.le_of_lt hab
  linarith

lemma newTimes_mem_le (idx k : ℕ) (rate : ℚ) (hr : 0 < rate) :
    ∀ x ∈ newTimes idx k rate, x ≤ ((idx + k : ℕ) : ℚ) / rate := by
  intro x hx
  unfold newTimes at hx
  rw [List.mem_map] at hx
  obtain ⟨i, hi, rfl⟩ := hx
  rw [List.mem_range] at hi
  apply div_le_div_of_nonneg_right ?_ hr.le
  have : (i : ℚ) ≤ (k : ℚ) := by exact_mod_cast Nat.le_of_lt hi
  push_cast
  linarith

lemma newTimes_mem_ge (idx k : ℕ) (rate : ℚ) (hr : 0 < rate) :
    ∀ x ∈ newTimes idx k rate, (idx : ℚ) / rate ≤ x := by
  intro x hx
  unfold newTimes at hx
  rw [List.mem_map] at hx
  obtain ⟨i, hi, rfl⟩ := hx
  apply div_le_div_of_nonneg_right ?_ hr.le
  have : (0 : ℚ) ≤ (i : ℚ) := by exact_mod_cast Nat.zero_le i
  linarith

lemma timeInv_step (s : ℕ × List ℚ) (a : ℕ) (h : timeInv s) :
    timeInv (timeStep s a) := by
  obtain ⟨hlen, hsort, hbound⟩ := h
  unfold timeStep
  by_cases hk : 0 < min a 1000
  · simp only [if_pos hk]
    set k := min a 1000 with hkdef
    have hrate : (0 : ℚ) < (sampleRate : ℚ) := by norm_num [sampleRate]
    have hkcap : k ≤ maxSamples := by
      have h1 : k ≤ 1000 := min_le_right a 1000
      have h2 : (1000 : ℕ) ≤ maxSamples := by norm_num [maxSamples, sampleRate]
      omega
    have hklen : k ≤ s.2.length := by rw [hlen]; exact hkcap
    have heq : foldTime s.2 s.1 k (sampleRate : ℚ) =
        s.2.drop k ++ newTimes s.1 k (sampleRate : ℚ) := foldTime_eq s.2 s.1 k _ hklen
    refine ⟨?_, ?_, ?_⟩
    · simp only [heq, List.length_append, List.length_drop, newTimes_length, hlen]
      omega
    · rw [heq, List.Sorted, List.pairwise_append]
      refine ⟨List.Pairwise.sublist (List.drop_sublist k s.2) hsort,
        newTimes_sorted s.1 k _ hrate, ?_⟩
      intro x hx y hy
      have hx2 : x ∈ s.2 := List.mem_of_mem_drop hx
      calc x ≤ (s.1 : ℚ) / (sampleRate : ℚ) := hbound x hx2
        _ ≤ y := newTimes_mem_ge s.1 k _ hrate y hy
    · intro x hx
      rw [heq, List.mem_append] at hx
      rcases hx with hx | hx
      · have hx2 : x ∈ s.2 := List.mem_of_mem_drop hx
        calc x ≤ (s.1 : ℚ) / (sampleRate : ℚ) := hbound x hx2
          _ ≤ ((s.1 + k : ℕ) : ℚ) / (sampleRate : ℚ) := by
            apply div_le_div_of_nonneg_right ?_ hrate.le
            push_cast
            linarith [Nat.cast_nonneg (α := ℚ) k]
      · exact newTimes_mem_le s.1 k _ hrate x hx
  · simp only [if_neg hk]
    exact ⟨hlen, hsort, hbound⟩

lemma timeInv_run (s : ℕ × List ℚ) (avails : List ℕ) (h : timeInv s) :
    timeInv (timeRun s avails) := by
  induction avails generalizing s with
  | nil => exact h
  | cons a as ih =>
    unfold timeRun at *
    rw [List.foldl_cons]
    exact ih (timeStep s a) (timeInv_step s a h)

lemma timeInv_init : timeInv initTime := by
  refine ⟨List.length_replicate maxSamples 0, ?_, ?_⟩
  · rw [List.Sorted]
    exact List.pairwise_replicate.mpr (Or.inr (le_refl (0 : ℚ)))
  · intro x hx
    rw [List.eq_of_mem_replicate hx]
    norm_num [initTime, sampleRate]

/-- Claim C2: over every sequence of folds starting from the zeroed buffer
with cumulative sample index 0, the timestamps stay non-decreasing after
every fold and their length stays equal to the fixed capacity
`sample_rate * 60` (`window_seconds = 60`).  Each prefix of `avails` is
itself a run, so the conclusion holds after every intermediate fold too. -/
theorem c2_timestamps_sorted_constant_length (avails : List ℕ) :
    (timeRun initTime avails).2.Sorted (· ≤ ·)
    ∧ (timeRun initTime avails).2.length = sampleRate * 60 := by
  have h := timeInv_run initTime avails timeInv_init
  exact ⟨h.2.1, h.1⟩

/-! ## TDMS container reader (`TdmsHandler._load`) -/

/-- One channel of a TDMS group: its name, its `wf_increment` property when
the property bag declares it, and its sample array. -/
structure TdmsChannel where
  name : String
  wfIncrement : Option ℚ
  data : List ℚ
deriving DecidableEq

/-- One group of a TDMS file: its named channels in file order. -/
structure TdmsGroup where
  channels : List TdmsChannel
deriving DecidableEq

/-- A TDMS file: its groups in file order. -/
structure TdmsFileData where
  groups : List TdmsGroup
deriving DecidableEq

/-- The distinct failure points of `TdmsHandler._load`: the open of the file
(`TdmsFile.read` raising an OS error), `tdms_file.groups()[0]` on a file with
no groups, and `next(iter(self.channel_data.values()))` on a group with no
channels. -/
inductive TdmsError where
  | ioError
  | noGroups
  | noChannels
deriving DecidableEq

/-- The result of a successful load: the reconstructed time axis and the
insertion-ordered mapping from channel name to sample array. -/
structure TdmsResult where
  timeAxis : List ℚ
  channelData : List (String × List ℚ)
deriving DecidableEq

/-- Insertion into a Python dict rendered as an ordered association list:
a repeated key keeps its first position and takes the new value. -/
def dictInsert (d : List (String × List ℚ)) (key : String) (v : List ℚ) :
    List (String × List ℚ) :=
  if d.any fun p => p.1 == key then
    d.map fun p => if p.1 == key then (key, v) else p
  else d ++ [(key, v)]

/-- The Python dict comprehension `{k: v for (k, v) in ps}` as an ordered
association list. -/
def pyDict (ps : List (String × List ℚ)) : List (String × List ℚ) :=
  ps.foldl (fun d p => dictInsert d p.1 p.2) []

/-- `TdmsHandler._load`, over a filesystem `fs` mapping each path to the file
stored there (`none` when the path cannot be opened): takes the first group,
takes `wf_increment` from the first channel whose property bag declares it
(default `1.0`), collects the channel arrays into a dict, and builds
`time_axis = np.arange(num_samples) * wf_increment` where `num_samples` is
the length of the first dict value.  An `Except.error` reproduces the
exception paths, on which the constructor returns no result. -/
def tdmsLoad (fs : String → Option TdmsFileData) (path : String) :
    Except TdmsError TdmsResult :=
  match fs path with
  | none => .error .ioError
  | some f =>
    match f.groups with
    | [] => .error .noGroups
    | g :: _ =>
      let wf := (g.channels.findSome? fun ch => ch.wfIncrement).getD 1
      let cd := pyDict (g.channels.map fun ch => (ch.name, ch.data))
      match cd with
      | [] => .error .noChannels
      | c0 :: rest =>
        .ok ⟨(List.range c0.2.length).map fun i : ℕ => (i : ℚ) * wf, c0 :: rest⟩

lemma dictInsert_ne_nil (d : List (String × List ℚ)) (key : String)
    (v : List ℚ) : dictInsert d key v ≠ [] := by
  unfold dictInsert
  split
  · next hany =>
    cases d with
    | nil => simp at hany
    | cons p ps => simp
  · simp

lemma foldl_dictInsert_ne_nil (ps : List (String × List ℚ))
    (d : List (String × List ℚ)) (hd : d ≠ []) :
    ps.foldl (fun d p => dictInsert d p.1 p.2) d ≠ [] := by
  induction ps generalizing d with
  | nil => exact hd
  | cons p ps ih =>
    rw [List.foldl_cons]
    exact ih (dictInsert d p.1 p.2) (dictInsert_ne_nil d p.1 p.2)

lemma pyDict_ne_nil (p : String × List ℚ) (ps : List (String × List ℚ)) :
    pyDict (p :: ps) ≠ [] := by
  unfold pyDict
  rw [List.foldl_cons]
  exact foldl_dictInsert_ne_nil ps _ (dictInsert_ne_nil [] p.1 p.2)

lemma mem_dictInsert (d : List (String × List ℚ)) (key : String) (v : List ℚ)
    (q : String × List ℚ) (hq : q ∈ dictInsert d key v) :
    q ∈ d ∨ q = (key, v) := by
  unfold dictInsert at hq
  split at hq
  · rw [List.mem_map] at hq
    obtain ⟨p, hp, hpq⟩ := hq
    by_cases hk : p.1 == key
    · rw [if_pos hk] at hpq
      exact Or.inr hpq.symm
    · rw [if_neg hk] at hpq
      exact Or.inl (hpq ▸ hp)
  · rw [List.mem_append, List.mem_singleton] at hq
    exact hq

lemma mem_foldl_dictInsert (ps : List (String × List ℚ))
    (d : List (String × List ℚ)) (q : String × List ℚ)
    (hq : q ∈ ps.foldl (fun d p => dictInsert d p.1 p.2) d) :
    q ∈ d ∨ q ∈ ps := by
  induction ps generalizing d with
  | nil => exact Or.inl hq
  | cons p ps ih =>
    rw [List.foldl_cons] at hq
    rcases ih (dictInsert d p.1 p.2) hq with h | h
    · rcases mem_dictInsert d p.1 p.2 q h with h2 | h2
      · exact Or.inl h2
      · exact Or.inr (by rw [h2]; exact List.mem_cons_self p ps)
    · exact Or.inr (List.mem_cons_of_mem p h)

/-- Every entry of the dict is one of the inserted pairs. -/
lemma mem_pyDict (ps : List (String × List ℚ)) (q : String × List ℚ)
    (hq : q ∈ pyDict ps) : q ∈ ps := by
  rcases mem_foldl_dictInsert ps [] q hq with h | h
  · simp at h
  · exact h

lemma tdmsLoad_eq_of_none (fs : String → Option TdmsFileData) (path : String)
    (h : fs path = none) : tdmsLoad fs path = .error .ioError := by
  simp only [tdmsLoad, h]

lemma tdmsLoad_eq_of_noGroups (fs : String → Option TdmsFileData) (path : String)
    (f : TdmsFileData) (h : fs path = some f) (hg : f.groups = []) :
    tdmsLoad fs path = .error .noGroups := by
  simp only [tdmsLoad, h, hg]

lemma tdmsLoad_eq_of_noChannels (fs : String → Option TdmsFileData) (path : String)
    (f : TdmsFileData) (g : TdmsGroup) (gs : List TdmsGroup)
    (h : fs path = some f) (hg : f.groups = g :: gs) (hc : g.channels = []) :
    tdmsLoad fs path = .error .noChannels := by
  simp only [tdmsLoad, h, hg, hc, List.map_nil]
  rfl

lemma tdmsLoad_eq_of_ok (fs : String → Option TdmsFileData) (path : String)
    (f : TdmsFileData) (g : TdmsGroup) (gs : List TdmsGroup)
    (c0 : String × List ℚ) (rest : List (String × List ℚ))
    (h : fs path = some f) (hg : f.groups = g :: gs)
    (hcd : pyDict (g.channels.map fun ch => (ch.name, ch.data)) = c0 :: rest) :
    tdmsLoad fs path = .ok
      ⟨(List.range c0.2.length).map fun i : ℕ =>
          (i : ℚ) * ((g.channels.findSome? fun ch => ch.wfIncrement).getD 1),
        c0 :: rest⟩ := by
  simp only [tdmsLoad, h, hg, hcd]

/-- Claim C4: the load fails with an open error exactly when the path cannot
be opened, with a no-groups format error exactly when the container has zero
groups, and with a no-channels format error exactly when its first group has
zero channels; on each failure `Except.error` carries no partial result. -/
theorem c4_load_failure_classification (fs : String → Option TdmsFileData)
    (path : String) :
    (tdmsLoad fs path = .error .ioError ↔ fs path = none)
    ∧ (tdmsLoad fs path = .error .noGroups ↔
        ∃ f, fs path = some f ∧ f.groups = [])
    ∧ (tdmsLoad fs path = .error .noChannels ↔
        ∃ f g gs, fs path = some f ∧ f.groups = g :: gs ∧ g.channels = [])
    ∧ ((∃ e, tdmsLoad fs path = .error e) ↔
        (fs path = none ∨ ∃ f, fs path = some f ∧ (f.groups = [] ∨
          ∃ g gs, f.groups = g :: gs ∧ g.channels = []))) := by
  rcases hfs : fs path with _ | f
  · rw [tdmsLoad_eq_of_none fs path hfs]
    simp
  · rcases hgr : f.groups with _ | ⟨g, gs⟩
    · rw [tdmsLoad_eq_of_noGroups fs path f hfs hgr]
      simp [hgr]
    · rcases hch : g.channels with _ | ⟨c, cs⟩
      · rw [tdmsLoad_eq_of_noChannels fs path f g gs hfs hgr hch]
        simp [hgr, hch]
      · have hne : pyDict (g.channels.map fun ch => (ch.name, ch.data)) ≠ [] := by
          rw [hch, List.map_cons]
          exact pyDict_ne_nil _ _
        rcases hcd : pyDict (g.channels.map fun ch => (ch.name, ch.data))
          with _ | ⟨c0, rest⟩
        · exact absurd hcd hne
        · rw [tdmsLoad_eq_of_ok fs path f g gs c0 rest hfs hgr hcd]
          simp [hgr, hch]

/-- A concrete TDMS file whose first group holds two channels with sample
arrays of different lengths (3 and 5); the first channel declares
`wf_increment = 1/100`. -/
def groupAB : TdmsGroup :=
  ⟨[⟨"a", some (1 / 100), [0, 0, 0]⟩, ⟨"b", none, [0, 0, 0, 0, 0]⟩]⟩

/-- A filesystem with that file stored at `m.tdms`. -/
def fsC3 : String → Option TdmsFileData := fun p =>
  if p = "m.tdms" then some ⟨[groupAB]⟩ else none

/-- Counterexample to claim C3 as stated: the container at `m.tdms` loads
successfully, `num_samples` and the time axis have length 3 (taken from the
first channel), yet the second returned channel array has length 5, so not
every returned channel array has length `num_samples`. -/
theorem c3_counterexample :
    (tdmsLoad fsC3 "m.tdms").isOk = true
    ∧ ((tdmsLoad fsC3 "m.tdms").toOption.map fun r => r.timeAxis.length) = some 3
    ∧ ((tdmsLoad fsC3 "m.tdms").toOption.map fun r =>
        r.channelData.map fun p => p.2.length) = some [3, 5] := by
  decide

/-- Claim C3, amended: on a successful load, `time_axis[i] = i * sample_increment`
for every index `i`, where `sample_increment` comes from the first channel in
file order that declares `wf_increment` (default `1.0`); the time axis has
the length of the first returned channel array (`num_samples`), and the
returned channel arrays keep the lengths they have in the file, so all of
them share length `num_samples` exactly when every channel of the first
group has `num_samples` samples. -/
theorem c3_time_axis_amended (fs : String → Option TdmsFileData) (path : String)
    (f : TdmsFileData) (g : TdmsGroup) (gs : List TdmsGroup)
    (c0 : String × List ℚ) (rest : List (String × List ℚ))
    (hf : fs path = some f) (hg : f.groups = g :: gs)
    (hcd : pyDict (g.channels.map fun ch => (ch.name, ch.data)) = c0 :: rest) :
    ∃ r, tdmsLoad fs path = .ok r
      ∧ r.channelData = c0 :: rest
      ∧ r.timeAxis.length = c0.2.length
      ∧ (∀ i, i < c0.2.length → r.timeAxis.get? i =
          some ((i : ℚ) * ((g.channels.findSome? fun ch => ch.wfIncrement).getD 1)))
      ∧ ((∀ ch ∈ g.channels, ch.data.length = c0.2.length) →
          ∀ p ∈ r.channelData, p.2.length = r.timeAxis.length) := by
  refine ⟨_, tdmsLoad_eq_of_ok fs path f g gs c0 rest hf hg hcd, rfl, ?_, ?_, ?_⟩
  · simp
  · intro i hi
    rw [List.get?_map, List.get?_range hi]
    rfl
  · intro hall p hp
    have hp2 : p ∈ pyDict (g.channels.map fun ch => (ch.name, ch.data)) := by
      rw [hcd]
      exact hp
    have hp3 := mem_pyDict _ p hp2
    rw [List.mem_map] at hp3
    obtain ⟨ch, hch, rfl⟩ := hp3
    have hlen : ch.data.length = c0.2.length := hall ch hch
    simp only [hlen]
    simp

/-- Witness for the amended C3 at the concrete file stored at `m.tdms`. -/
theorem c3_time_axis_amended_witness :
    ∃ r, tdmsLoad fsC3 "m.tdms" = .ok r
      ∧ r.channelData = ("a", [0, 0, 0]) :: [("b", [0, 0, 0, 0, 0])]
      ∧ r.timeAxis.length = ("a", ([0, 0, 0] : List ℚ)).2.length
      ∧ (∀ i, i < ("a", ([0, 0, 0] : List ℚ)).2.length → r.timeAxis.get? i =
          some ((i : ℚ) * ((groupAB.channels.findSome? fun ch => ch.wfIncrement).getD 1)))
      ∧ ((∀ ch ∈ groupAB.channels, ch.data.length = ("a", ([0, 0, 0] : List ℚ)).2.length) →
          ∀ p ∈ r.channelData, p.2.length = r.timeAxis.length) :=
  c3_time_axis_amended fsC3 "m.tdms" ⟨[groupAB]⟩ groupAB []
    ("a", [0, 0, 0]) [("b", [0, 0, 0, 0, 0])] rfl rfl (by decide)

/-! ## Session state machine (`start_acquisition` / `stop_acquisition`) -/

/-- The configuration steps of `start_acquisition` that can raise.
`nidaqmx.Task()` is created *outside* the `try` block; every other step runs
inside it and is covered by the `except` handler. -/
inductive CfgStep where
  | createTask
  | addChannel
  | cfgTiming
  | cfgLogging
  | mkReader
  | taskStart
deriving DecidableEq

/-- The observable outcome of one `start_acquisition` call: the early return
on `self.acquiring` (the `AlreadyRunning` rejection of the spec), a
successful start, a configuration failure handled by the `except` block, or
the uncaught propagation when `nidaqmx.Task()` itself raises. -/
inductive StartOutcome where
  | alreadyRunning
  | started
  | configFailed (step : CfgStep)
  | uncaughtError (step : CfgStep)
deriving DecidableEq

/-- The mutable state of `MeasurementHandler` relevant to the session
lifecycle.  `taskOpen = none` models `self.task is None`; `some true` an
open task object; `some false` a task object that has been closed.
`closeCalls` counts calls to `task.close()`; `workers` counts acquisition
threads that were started. -/
structure Session where
  acquiring : Bool
  stopEventSet : Bool
  tdmsPathSet : Bool
  nChannels : ℕ
  timeBuf : List ℚ
  dataBuf : List (List ℚ)
  taskOpen : Option Bool
  closeCalls : ℕ
  workers : ℕ
deriving DecidableEq

/-- `start_acquisition`, parametrised by which configuration step fails
(`none`: every step succeeds).  Mirrors the source: early return when
already acquiring; clear the stop event, derive the TDMS path, zero both
buffers; create the task (an exception here propagates uncaught); inside
`try`, add the channels, configure timing and logging, create the reader,
start the task, spawn the worker thread, set `acquiring`; on an exception
the `except` block closes the task, sets it to `None` and clears
`acquiring`. -/
def startAcquisition (s : Session) (failAt : Option CfgStep) :
    Session × StartOutcome :=
  if s.acquiring then (s, .alreadyRunning)
  else
    let s1 : Session :=
      { s with stopEventSet := false, tdmsPathSet := true,
               dataBuf := List.replicate s.nChannels (List.replicate maxSamples 0),
               timeBuf := List.replicate maxSamples 0 }
    if failAt = some .createTask then (s1, .uncaughtError .createTask)
    else
      let s2 : Session := { s1 with taskOpen := some true }
      match failAt with
      | some step =>
        ({ s2 with taskOpen := none, closeCalls := s2.closeCalls + 1,
                   acquiring := false }, .configFailed step)
      | none =>
        ({ s2 with workers := s2.workers + 1, acquiring := true }, .started)

/-- `stop_acquisition`: sets the stop event if acquiring, otherwise no-op. -/
def stopAcquisition (s : Session) : Session :=
  if s.acquiring then { s with stopEventSet := true } else s

/-- No open hardware handle: `self.task` is `None` or a closed task. -/
def taskClosedOrNone (s : Session) : Prop :=
  ∀ b, s.taskOpen = some b → b = false

lemma startAcquisition_of_acquiring (s : Session) (f : Option CfgStep)
    (h : s.acquiring = true) : startAcquisition s f = (s, .alreadyRunning) := by
  simp [startAcquisition, h]

lemma startAcquisition_of_ok (s : Session) (h : s.acquiring = false) :
    startAcquisition s none =
      ({ s with
          stopEventSet := false
          tdmsPathSet := true
          timeBuf := List.replicate maxSamples 0
          dataBuf := List.replicate s.nChannels (List.replicate maxSamples 0)
          taskOpen := some true
          workers := s.workers + 1
          acquiring := true }, .started) := by
  simp [startAcquisition, h]

lemma startAcquisition_of_createTask (s : Session) (h : s.acquiring = false) :
    startAcquisition s (some .createTask) =
      ({ s with
          stopEventSet := false
          tdmsPathSet := true
          timeBuf := List.replicate maxSamples 0
          dataBuf := List.replicate s.nChannels (List.replicate maxSamples 0) },
        .uncaughtError .createTask) := by
  simp [startAcquisition, h]

lemma startAcquisition_of_fail (s : Session) (step : CfgStep)
    (h : s.acquiring = false) (hne : step ≠ .createTask) :
    startAcquisition s (some step) =
      ({ s with
          stopEventSet := false
          tdmsPathSet := true
          timeBuf := List.replicate maxSamples 0
          dataBuf := List.replicate s.nChannels (List.replicate maxSamples 0)
          taskOpen := none
          closeCalls := s.closeCalls + 1
          acquiring := false }, .configFailed step) := by
  simp [startAcquisition, h, hne]

/-- Claim C5: a `start_acquisition` call on a session that is already
acquiring is rejected by the early return (the `AlreadyRunning` rejection)
and changes nothing, whatever the hardware would have done; and two
successive calls from an idle session yield exactly one running session with
exactly one new worker thread plus one rejection that leaves the state of
the first call untouched. -/
theorem c5_double_start_single_worker (s t : Session) (f : Option CfgStep)
    (ht : t.acquiring = true) (hs : s.acquiring = false) :
    startAcquisition t f = (t, .alreadyRunning)
    ∧ (startAcquisition s none).2 = .started
    ∧ (startAcquisition s none).1.acquiring = true
    ∧ (startAcquisition s none).1.workers = s.workers + 1
    ∧ startAcquisition (startAcquisition s none).1 none =
        ((startAcquisition s none).1, .alreadyRunning) := by
  refine ⟨startAcquisition_of_acquiring t f ht, ?_, ?_, ?_, ?_⟩
  · rw [startAcquisition_of_ok s hs]
  · rw [startAcquisition_of_ok s hs]
  · rw [startAcquisition_of_ok s hs]
  · rw [startAcquisition_of_ok s hs]
    exact startAcquisition_of_acquiring _ none rfl

/-- A concrete idle session with no task and no worker. -/
def idleSession : Session :=
  { acquiring := false, stopEventSet := false, tdmsPathSet := false,
    nChannels := 2, timeBuf := [], dataBuf := [], taskOpen := none,
    closeCalls := 0, workers := 0 }

/-- A concrete session that is currently acquiring. -/
def runningSession : Session :=
  { acquiring := true, stopEventSet := false, tdmsPathSet := true,
    nChannels := 2, timeBuf := [], dataBuf := [], taskOpen := some true,
    closeCalls := 0, workers := 1 }

/-- Witness for C5 at the concrete idle and running sessions. -/
theorem c5_double_start_single_worker_witness :
    startAcquisition runningSession none = (runningSession, .alreadyRunning)
    ∧ (startAcquisition idleSession none).2 = .started
    ∧ (startAcquisition idleSession none).1.acquiring = true
    ∧ (startAcquisition idleSession none).1.workers = idleSession.workers + 1
    ∧ startAcquisition (startAcquisition idleSession none).1 none =
        ((startAcquisition idleSession none).1, .alreadyRunning) :=
  c5_double_start_single_worker idleSession runningSession none rfl rfl

/-- Claim C6: when any configuration step of `start_acquisition` fails, the
session ends not running with no open hardware handle and no new worker; for
a failure inside the `try` block (any step other than task creation, e.g. a
missing custom scale) the partially opened task is closed (`task.close()` is
called once) and cleared (`self.task = None`). -/
theorem c6_config_failure_cleanup (s : Session) (step : CfgStep)
    (hs : s.acquiring = false) (hh : taskClosedOrNone s) :
    (startAcquisition s (some step)).1.acquiring = false
    ∧ (startAcquisition s (some step)).1.workers = s.workers
    ∧ taskClosedOrNone (startAcquisition s (some step)).1
    ∧ (step ≠ .createTask →
        (startAcquisition s (some step)).1.taskOpen = none
        ∧ (startAcquisition s (some step)).1.closeCalls = s.closeCalls + 1)
    ∧ (startAcquisition s (some step)).2 ≠ .started := by
  by_cases hct : step = .createTask
  · subst hct
    rw [startAcquisition_of_createTask s hs]
    refine ⟨hs, rfl, ?_, ?_, ?_⟩
    · intro b hb
      exact hh b hb
    · intro hne
      exact absurd rfl hne
    · intro hcontra
      cases hcontra
  · rw [startAcquisition_of_fail s step hs hct]
    refine ⟨rfl, rfl, ?_, ?_, ?_⟩
    · intro b hb
      cases hb
    · intro _
      exact ⟨rfl, rfl⟩
    · intro hcontra
      cases hcontra

/-- Witness for C6 at the concrete idle session with a missing custom scale
(a failure while adding channels). -/
theorem c6_config_failure_cleanup_witness :
    (startAcquisition idleSession (some .addChannel)).1.acquiring = false
    ∧ (startAcquisition idleSession (some .addChannel)).1.workers = idleSession.workers
    ∧ taskClosedOrNone (startAcquisition idleSession (some .addChannel)).1
    ∧ (CfgStep.addChannel ≠ CfgStep.createTask →
        (startAcquisition idleSession (some .addChannel)).1.taskOpen = none
        ∧ (startAcquisition idleSession (some .addChannel)).1.closeCalls =
            idleSession.closeCalls + 1)
    ∧ (startAcquisition idleSession (some .addChannel)).2 ≠ .started :=
  c6_config_failure_cleanup idleSession .addChannel rfl (fun b hb => by cases hb)

/-! ## Channel-configuration parse (`MeasurementHandler.__init__`) -/

/-- The numeric value of a digit character. -/
def digitVal (c : Char) : ℕ :=
  c.toNat - 48

/-- The tail of a Python integer-literal digit body: digits, with single
underscores allowed only between digits. -/
def intTail : List Char → Bool
  | [] => true
  | '_' :: rest =>
    match rest with
    | [] => false
    | c :: rest2 => c.isDigit && intTail rest2
  | c :: rest => c.isDigit && intTail rest

/-- A Python integer-literal digit body: non-empty, starts with a digit. -/
def intBody : List Char → Bool
  | [] => false
  | c :: rest => c.isDigit && intTail rest

/-- The value of a digit body, skipping grouping underscores. -/
def digitsToNat (cs : List Char) : ℕ :=
  cs.foldl (fun n c => if c = '_' then n else 10 * n + digitVal c) 0

/-- Python `int(s)` on an already-stripped string: an optional sign followed
by a digit body; `none` models the `ValueError`. -/
def pyInt? (s : String) : Option ℤ :=
  match s.data with
  | [] => none
  | '+' :: rest => if intBody rest then some (digitsToNat rest : ℤ) else none
  | '-' :: rest => if intBody rest then some (-(digitsToNat rest : ℤ)) else none
  | cs => if intBody cs then some (digitsToNat cs : ℤ) else none

/-- A non-empty all-digit string. -/
def decDigits (cs : List Char) : Bool :=
  !cs.isEmpty && cs.all fun c => c.isDigit

/-- A decimal-number body: digits with at most one decimal point separating
two non-empty digit runs. -/
def numBody (cs : List Char) : Bool :=
  match cs.dropWhile (fun c => c != '.') with
  | [] => decDigits cs
  | _ :: frac =>
    decDigits (cs.takeWhile fun c => c != '.') && decDigits frac

/-- Whether a string is a number in the spec's sense (an optionally signed
decimal numeral, integer or fractional). -/
def isPyNumber (s : String) : Bool :=
  match s.data with
  | '+' :: rest => numBody rest
  | '-' :: rest => numBody rest
  | cs => numBody cs

/-- The exception paths of the channel parse in `MeasurementHandler.__init__`:
an `IndexError` on a missing list index, or a `ValueError` from
`int(parts[3])`. -/
inductive ConfigError where
  | missingField (index : ℕ)
  | badMaxRange (s : String)
deriving DecidableEq

/-- One parsed channel record, as stored in `self.channel_dict`. -/
structure ChannelInfo where
  channel : String
  terminal : String
  scale : Option String
  maxRange : ℤ
  unit : String
deriving DecidableEq

/-- The per-channel parse of `MeasurementHandler.__init__` over the stripped
comma-separated field list `parts`, with the evaluation order of the dict
literal: `parts[0]`, `parts[1]`, the guarded `parts[2]`, `int(parts[3])`,
`parts[4]`. -/
def parseChannel (parts : List String) : Except ConfigError ChannelInfo :=
  match parts.get? 0 with
  | none => .error (.missingField 0)
  | some c =>
    match parts.get? 1 with
    | none => .error (.missingField 1)
    | some t =>
      let sc := if parts.length > 2 then some (parts.getD 2 "") else none
      match parts.get? 3 with
      | none => .error (.missingField 3)
      | some m =>
        match pyInt? m with
        | none => .error (.badMaxRange m)
        | some v =>
          match parts.get? 4 with
          | none => .error (.missingField 4)
          | some u => .ok ⟨c, t, sc, v, u⟩

/-- Counterexample to claim C7 as stated: the field list
`address, terminal_mode, scale, max_range, unit` with `max_range = 10.5` has
every required field present and `max_range` numeric, yet the parse fails
(`int("10.5")` raises `ValueError`), because the source accepts only
integer literals for `max_range`. -/
theorem c7_counterexample :
    (["ai0", "RSE", "", "10.5", "V"] : List String).length = 5
    ∧ isPyNumber "10.5" = true
    ∧ parseChannel ["ai0", "RSE", "", "10.5", "V"] =
        .error (.badMaxRange "10.5") := by
  refine ⟨rfl, by decide, ?_⟩
  have h : pyInt? "10.5" = none := by decide
  simp [parseChannel, h]

/-- Claim C7, amended: the parse fails exactly when one of the required
fields `address`, `terminal_mode`, `max_range`, `unit` is missing from the
field list (fewer than five fields) or `max_range` does not parse as a
Python *integer* literal; otherwise it succeeds and produces the one
per-channel record. -/
theorem c7_parse_channel_amended (parts : List String) :
    ((∃ e, parseChannel parts = Except.error e) ↔
      (parts.length < 5 ∨ pyInt? (parts.getD 3 "") = none))
    ∧ (¬(parts.length < 5 ∨ pyInt? (parts.getD 3 "") = none) →
        parseChannel parts = Except.ok
          ⟨parts.getD 0 "", parts.getD 1 "",
            (if parts.length > 2 then some (parts.getD 2 "") else none),
            (pyInt? (parts.getD 3 "")).getD 0, parts.getD 4 ""⟩) := by
  rcases parts with _ | ⟨p0, parts1⟩
  · exact ⟨⟨fun _ => by simp, fun _ => ⟨.missingField 0, rfl⟩⟩, fun h => absurd (by simp) h⟩
  rcases parts1 with _ | ⟨p1, parts2⟩
  · exact ⟨⟨fun _ => by simp, fun _ => ⟨.missingField 1, rfl⟩⟩, fun h => absurd (by simp) h⟩
  rcases parts2 with _ | ⟨p2, parts3⟩
  · refine ⟨⟨fun _ => by simp, fun _ => ⟨.missingField 3, ?_⟩⟩, fun h => absurd (by simp) h⟩
    rfl
  rcases parts3 with _ | ⟨p3, parts4⟩
  · refine ⟨⟨fun _ => by simp, fun _ => ⟨.missingField 3, ?_⟩⟩, fun h => absurd (by simp) h⟩
    rfl
  rcases parts4 with _ | ⟨p4, parts5⟩
  · constructor
    · constructor
      · intro _
        simp
      · intro _
        rcases hint : pyInt? p3 with _ | v
        · exact ⟨.badMaxRange p3, by simp [parseChannel, hint]⟩
        · exact ⟨.missingField 4, by simp [parseChannel, hint]⟩
    · intro h
      exact absurd (by simp) h
  · rcases hint : pyInt? p3 with _ | v
    · constructor
      · constructor
        · intro _
          refine Or.inr ?_
          simpa using hint
        · intro _
          exact ⟨.badMaxRange p3, by simp [parseChannel, hint]⟩
      · intro h
        refine absurd (Or.inr ?_) h
        simpa using hint
    · constructor
      · constructor
        · intro he
          obtain ⟨e, he⟩ := he
          rw [show parseChannel (p0 :: p1 :: p2 :: p3 :: p4 :: parts5) =
            Except.ok ⟨p0, p1, some p2, v, p4⟩ by simp [parseChannel, hint]] at he
          cases he
        · intro h
          rcases h with h | h
          · simp at h
            omega
          · rw [show (p0 :: p1 :: p2 :: p3 :: p4 :: parts5).getD 3 "" = p3 from rfl] at h
            rw [hint] at h
            cases h
      · intro _
        simp [parseChannel, hint]

/-- Witness for the amended C7 at a concrete well-formed field list. -/
theorem c7_parse_channel_amended_witness :
    ((∃ e, parseChannel ["ai0", "RSE", "", "10", "V"] = Except.error e) ↔
      ((["ai0", "RSE", "", "10", "V"] : List String).length < 5
        ∨ pyInt? ((["ai0", "RSE", "", "10", "V"] : List String).getD 3 "") = none))
    ∧ (¬((["ai0", "RSE", "", "10", "V"] : List String).length < 5
        ∨ pyInt? ((["ai0", "RSE", "", "10", "V"] : List String).getD 3 "") = none) →
        parseChannel ["ai0", "RSE", "", "10", "V"] = Except.ok
          ⟨(["ai0", "RSE", "", "10", "V"] : List String).getD 0 "",
            (["ai0", "RSE", "", "10", "V"] : List String).getD 1 "",
            (if (["ai0", "RSE", "", "10", "V"] : List String).length > 2 then
              some ((["ai0", "RSE", "", "10", "V"] : List String).getD 2 "") else none),
            (pyInt? ((["ai0", "RSE", "", "10", "V"] : List String).getD 3 "")).getD 0,
            (["ai0", "RSE", "", "10", "V"] : List String).getD 4 ""⟩) :=
  c7_parse_channel_amended ["ai0", "RSE", "", "10", "V"]

/-! ## Worker-loop heap model (`_acquire_loop` publish aliasing) -/

/-- Roll every row of a two-dimensional array:
`np.roll(m, -k, axis=1)`, which allocates a fresh array. -/
def rollRows (m : List (List ℚ)) (k : ℕ) : List (List ℚ) :=
  m.map fun row => npRollLeft row k

/-- `m[:, -k:] = temp`: overwrite the trailing `k` entries of each row. -/
def setTrailingRows (m temp : List (List ℚ)) : List (List ℚ) :=
  List.zipWith setTrailing m temp

/-- One iteration's inputs: the hardware's available-sample count and the
freshly read `temp_data` block. -/
structure FoldInput where
  available : ℕ
  temp : List (List ℚ)
deriving DecidableEq

/-- The worker's state with the numpy arrays modelled as heap cells:
`tStore`/`dStore` map array addresses to contents, `nextT`/`nextD` are the
next fresh addresses, `tRef`/`dRef` are the addresses currently bound to
`self.time_buffer`/`self.data_buffer`, `idx` is the cumulative sample index,
`hasCallback` whether `self._stream_callback` is set, and `published` records
the address pairs handed to the consumer, in order. -/
structure AcqState where
  nextT : ℕ
  tStore : ℕ → List ℚ
  nextD : ℕ
  dStore : ℕ → List (List ℚ)
  tRef : ℕ
  dRef : ℕ
  idx : ℕ
  hasCallback : Bool
  published : List (ℕ × ℕ)

/-- One iteration of `_acquire_loop` over the heap model.  With
`num_to_read = min(available, 1000) > 0`: `np.roll` allocates a fresh array
holding the rolled contents and rebinds the buffer name to it, the slice
assignment then mutates that fresh array in place, `idx` advances, and, if a
callback is registered, the pair of current addresses is published.  With
`num_to_read = 0` nothing happens. -/
def foldStep (st : AcqState) (inp : FoldInput) : AcqState :=
  let k := min inp.available 1000
  if 0 < k then
    let a := st.nextD
    let d1 := rollRows (st.dStore st.dRef) k
    let d2 := setTrailingRows d1 inp.temp
    let b := st.nextT
    let t1 := npRollLeft (st.tStore st.tRef) k
    let t2 := setTrailing t1 (newTimes st.idx k (sampleRate : ℚ))
    { nextT := b + 1
      tStore := Function.update (Function.update st.tStore b t1) b t2
      nextD := a + 1
      dStore := Function.update (Function.update st.dStore a d1) a d2
      tRef := b
      dRef := a
      idx := st.idx + k
      hasCallback := st.hasCallback
      published :=
        if st.hasCallback then st.published ++ [(b, a)] else st.published }
  else st

/-- A run of the worker loop over a list of iteration inputs. -/
def runFolds (st : AcqState) (inps : List FoldInput) : AcqState :=
  inps.foldl foldStep st

/-- Heap well-formedness: the live buffer addresses and every published
address lie below the fresh-address watermarks. -/
def wfAcq (st : AcqState) : Prop :=
  st.tRef < st.nextT ∧ st.dRef < st.nextD
    ∧ ∀ p ∈ st.published, p.1 < st.nextT ∧ p.2 < st.nextD

lemma foldStep_tStore_frozen (st : AcqState) (inp : FoldInput) (r : ℕ)
    (hr : r < st.nextT) : (foldStep st inp).tStore r = st.tStore r := by
  unfold foldStep
  by_cases hk : 0 < min inp.available 1000
  · simp only [if_pos hk]
    have hne : r ≠ st.nextT := Nat.ne_of_lt hr
    simp [Function.update, hne]
  · simp only [if_neg hk]

lemma foldStep_dStore_frozen (st : AcqState) (inp : FoldInput) (r : ℕ)
    (hr : r < st.nextD) : (foldStep st inp).dStore r = st.dStore r := by
  unfold foldStep
  by_cases hk : 0 < min inp.available 1000
  · simp only [if_pos hk]
    have hne : r ≠ st.nextD := Nat.ne_of_lt hr
    simp [Function.update, hne]
  · simp only [if_neg hk]

lemma foldStep_nextT_le (st : AcqState) (inp : FoldInput) :
    st.nextT ≤ (foldStep st inp).nextT := by
  unfold foldStep
  by_cases hk : 0 < min inp.available 1000
  · simp only [if_pos hk]
    exact Nat.le_succ _
  · simp only [if_neg hk]
    exact le_refl _

lemma foldStep_nextD_le (st : AcqState) (inp : FoldInput) :
    st.nextD ≤ (foldStep st inp).nextD := by
  unfold foldStep
  by_cases hk : 0 < min inp.available 1000
  · simp only [if_pos hk]
    exact Nat.le_succ _
  · simp only [if_neg hk]
    exact le_refl _

lemma foldStep_wf (st : AcqState) (inp : FoldInput) (h : wfAcq st) :
    wfAcq (foldStep st inp) := by
  obtain ⟨ht, hd, hp⟩ := h
  unfold foldStep
  by_cases hk : 0 < min inp.available 1000
  · simp only [if_pos hk]
    refine ⟨Nat.lt_succ_self _, Nat.lt_succ_self _, ?_⟩
    intro p hpm
    by_cases hcb : st.hasCallback
    · simp only [hcb, if_pos] at hpm
      rw [List.mem_append] at hpm
      rcases hpm with hpm | hpm
      · exact ⟨Nat.lt_succ_of_lt (hp p hpm).1, Nat.lt_succ_of_lt (hp p hpm).2⟩
      · rw [List.mem_singleton] at hpm
        subst hpm
        exact ⟨Nat.lt_succ_self _, Nat.lt_succ_self _⟩
    · simp only [hcb, if_neg, Bool.false_eq_true, not_false_iff] at hpm
      exact ⟨Nat.lt_succ_of_lt (hp p hpm).1, Nat.lt_succ_of_lt (hp p hpm).2⟩
  · simp only [if_neg hk]
    exact ⟨ht, hd, hp⟩

lemma runFolds_wf (st : AcqState) (inps : List FoldInput) (h : wfAcq st) :
    wfAcq (runFolds st inps) := by
  induction inps generalizing st with
  | nil => exact h
  | cons i is ih =>
    unfold runFolds at *
    rw [List.foldl_cons]
    exact ih (foldStep st i) (foldStep_wf st i h)

lemma runFolds_frozen (st : AcqState) (inps : List FoldInput) (r d : ℕ)
    (hr : r < st.nextT) (hd : d < st.nextD) :
    (runFolds st inps).tStore r = st.tStore r
    ∧ (runFolds st inps).dStore d = st.dStore d := by
  induction inps generalizing st with
  | nil => exact ⟨rfl, rfl⟩
  | cons i is ih =>
    unfold runFolds at *
    rw [List.foldl_cons]
    have h1 := ih (foldStep st i) (lt_of_lt_of_le hr (foldStep_nextT_le st i))
      (lt_of_lt_of_le hd (foldStep_nextD_le st i))
    exact ⟨h1.1.trans (foldStep_tStore_frozen st i r hr),
      h1.2.trans (foldStep_dStore_frozen st i d hd)⟩

/-- Claim C8: every payload published to the consumer behaves as a snapshot
of the buffer state at publish time: any sequence of later folds by the
worker leaves the heap cells of a published pair of arrays exactly as they
were, because `np.roll` rebinds the buffer names to freshly allocated arrays
and the in-place slice assignment only ever hits the fresh array of the
current iteration, before it is published. -/
theorem c8_published_snapshot_immutable (st : AcqState) (inps : List FoldInput)
    (p : ℕ × ℕ) (hwf : wfAcq st) (hp : p ∈ st.published) :
    (runFolds st inps).tStore p.1 = st.tStore p.1
    ∧ (runFolds st inps).dStore p.2 = st.dStore p.2 := by
  obtain ⟨_, _, hpub⟩ := hwf
  exact runFolds_frozen st inps p.1 p.2 (hpub p hp).1 (hpub p hp).2

/-- A concrete worker state that has just published the pair of arrays at
addresses `(0, 0)`. -/
def acqStateEx : AcqState :=
  { nextT := 1, tStore := fun _ => [0, 0, 0], nextD := 1,
    dStore := fun _ => [[1, 2, 3]], tRef := 0, dRef := 0, idx := 3,
    hasCallback := true, published := [(0, 0)] }

/-- Witness for C8: two further folds leave the published arrays intact. -/
theorem c8_published_snapshot_immutable_witness :
    (runFolds acqStateEx [⟨2, [[7, 8]]⟩, ⟨1, [[9]]⟩]).tStore 0 =
        acqStateEx.tStore 0
    ∧ (runFolds acqStateEx [⟨2, [[7, 8]]⟩, ⟨1, [[9]]⟩]).dStore 0 =
        acqStateEx.dStore 0 :=
  c8_published_snapshot_immutable acqStateEx [⟨2, [[7, 8]]⟩, ⟨1, [[9]]⟩] (0, 0)
    ⟨Nat.zero_lt_one, Nat.zero_lt_one, by decide⟩ (by decide)

/-- Claim C9: an iteration with zero available samples (`num_to_read = 0`)
leaves the whole worker state unchanged: the timestamps, the sample matrix
and the cumulative sample index are untouched, and nothing is published to
the consumer. -/
theorem c9_zero_fold_noop (st : AcqState) (temp : List (List ℚ)) :
    foldStep st ⟨0, temp⟩ = st := by
  unfold foldStep
  simp

/-! ## Session construction (`MeasurementHandler.__init__`) -/

/-- The already-parsed text of a `config.ini`: the `[global] device` entry
and the `[channels]` section, each value as its stripped comma-separated
field list (text parsing itself is out of the core, spec section 1). -/
structure IniConfig where
  device : String
  channels : List (String × List String)
deriving DecidableEq

/-- The environment `__init__` consults: whether the program runs as a
PyInstaller executable (`sys.frozen`), the directory of the executable, the
directory of the script file, and the configuration stored at each path. -/
structure Env where
  frozen : Bool
  executableDir : String
  scriptDir : String
  fileAt : String → IniConfig

/-- The path `__init__` always reads:
`os.path.join(base_path, "config.ini")` with `base_path` the executable's
directory when frozen, else the script's directory. -/
def resolvedConfigPath (env : Env) : String :=
  (if env.frozen then env.executableDir else env.scriptDir) ++ "/config.ini"

/-- The state `MeasurementHandler.__init__` builds. -/
structure Handler where
  configPath : String
  device : String
  channels : List (String × ChannelInfo)
  channelNames : List String
  channelUnits : List String
  rate : ℕ
  capacity : ℕ
  dataBuffer : List (List ℚ)
  timeBuffer : List ℚ
  acquiring : Bool
deriving DecidableEq

/-- `MeasurementHandler.__init__`: the `config_path` parameter is accepted
and then never read; the configuration comes from `config.ini` next to the
script or executable.  Channel parsing follows `parseChannel`; a parse
failure propagates as the constructor's exception. -/
def mkHandler (_configPathArg : String) (env : Env) : Except ConfigError Handler :=
  let cfgPath := resolvedConfigPath env
  let cfg := env.fileAt cfgPath
  match cfg.channels.mapM
      (fun p => (parseChannel p.2).map fun ci => (p.1, ci)) with
  | .error e => .error e
  | .ok chs =>
    .ok { configPath := cfgPath
          device := cfg.device
          channels := chs
          channelNames := chs.map fun p => p.1
          channelUnits := chs.map fun p => p.2.unit
          rate := sampleRate
          capacity := maxSamples
          dataBuffer :=
            List.replicate (chs.map fun p => p.1).length
              (List.replicate maxSamples 0)
          timeBuffer := List.replicate maxSamples 0
          acquiring := false }

/-- Claim C10: the `config_path` argument is ignored — any two argument
values produce identical states, even under environments that differ
arbitrarily away from the resolved path — and the configuration is loaded
from `config.ini` next to the running script or executable: the constructed
state depends only on the file stored at `resolvedConfigPath`, which is also
the `config_path` the state records. -/
theorem c10_config_path_argument_ignored (cp₁ cp₂ : String) (env env' : Env)
    (hf : env.frozen = env'.frozen) (he : env.executableDir = env'.executableDir)
    (hs : env.scriptDir = env'.scriptDir)
    (hc : env.fileAt (resolvedConfigPath env) = env'.fileAt (resolvedConfigPath env')) :
    mkHandler cp₁ env = mkHandler cp₂ env'
    ∧ (mkHandler cp₁ env).toOption.map Handler.configPath =
        (mkHandler cp₁ env).toOption.map fun _ => resolvedConfigPath env := by
  have hpath : resolvedConfigPath env = resolvedConfigPath env' := by
    unfold resolvedConfigPath
    rw [hf, he, hs]
  constructor
  · have hc2 : env.fileAt (resolvedConfigPath env') =
        env'.fileAt (resolvedConfigPath env') := by
      rw [hpath] at hc
      exact hc
    simp only [mkHandler]
    rw [hpath, hc2]
  · simp only [mkHandler]
    rcases hm : (env.fileAt (resolvedConfigPath env)).channels.mapM
        (fun p => (parseChannel p.2).map fun ci => (p.1, ci)) with _ | _
    · rw [hm]
      rfl
    · rw [hm]
      rfl

/-- A concrete environment whose script directory holds a one-channel
configuration. -/
def envEx : Env :=
  { frozen := false, executableDir := "/opt/app", scriptDir := "/home/u/app",
    fileAt := fun p =>
      if p = "/home/u/app/config.ini" then
        ⟨"Dev3", [("p1", ["ai0", "RSE", "", "10", "V"])]⟩
      else ⟨"other", []⟩ }

/-- The same environment with a different file stored away from the resolved
path. -/
def envEx2 : Env :=
  { frozen := false, executableDir := "/opt/app", scriptDir := "/home/u/app",
    fileAt := fun p =>
      if p = "/home/u/app/config.ini" then
        ⟨"Dev3", [("p1", ["ai0", "RSE", "", "10", "V"])]⟩
      else ⟨"changed", [("q", [])]⟩ }

/-- Witness for C10: two different `config_path` arguments against the two
environments yield the same constructed state. -/
theorem c10_config_path_argument_ignored_witness :
    mkHandler "a.ini" envEx = mkHandler "b.ini" envEx2
    ∧ (mkHandler "a.ini" envEx).toOption.map Handler.configPath =
        (mkHandler "a.ini" envEx).toOption.map fun _ => resolvedConfigPath envEx :=
  c10_config_path_argument_ignored "a.ini" "b.ini" envEx envEx2 rfl rfl rfl (by decide)

end NiAcq
